import Mathlib

/-!
# Verification of `src/scripts/rename_migrations_to_unix_ms.py`

Shallow embedding of the migration-renaming script.  The script:

* lists the directory `src/migrations`, keeps entries whose extension is
  `.ts`, and sorts them by name (code-point lexicographic, as Python does);
* matches each file name against the regex `^(\d{14})_(.+)\.ts$`, where
  `\d` matches every Unicode decimal digit (category Nd) and `.` matches
  any character except the newline;
* parses the 14 digits as a UTC timestamp `YYYYMMDDHHMMSS` via
  `datetime.strptime` (raising on invalid calendar dates), computes
  `unix_ms = int(dt.timestamp() * 1000)` — an exact integer, since the
  source format has whole-second resolution and the magnitudes involved
  (|seconds| < 2.6e11) are far below 2^53, so the float product is exact;
* builds `new_base = f"{unix_ms}_{rest}"`, skips the file when the new
  name equals the old one, and otherwise appends a rename pair and an SQL
  pair to two lists;
* after the loop finishes, prints a header, the `mv` lines, a blank line,
  a second header, and the SQL `update` lines.

File names are modelled as `String`; the matching and transformation work
on the underlying `List Char`.  A run takes the directory listing (a list
of file names) and either returns the two entry lists (`Except.ok`) or the
offending 14-digit string (`Except.error`, modelling the uncaught
`ValueError` from `strptime`/`datetime`).
-/

/-- ASCII decimal digit test: the digits `str(int)` emits, and the
literal character classes (`[0-9]`, `[0-5]`, …) inside `_strptime`'s
field patterns.  This is NOT the `\d` of the pattern — see `isNd`. -/
def isDig (c : Char) : Bool := decide (48 ≤ c.toNat) && decide (c.toNat ≤ 57)

/-- First code points of the 66 aligned blocks of ten consecutive Unicode
decimal digits (category Nd) — the exact set Python's `\d` matches on
`str` patterns, extracted from CPython's Unicode tables.  Every Nd block
starts at its script's digit zero, so a digit's numeric value is its
offset within the block. -/
def ndBlocks : List Nat :=
  [0x30, 0x660, 0x6F0, 0x7C0, 0x966, 0x9E6, 0xA66, 0xAE6,
   0xB66, 0xBE6, 0xC66, 0xCE6, 0xD66, 0xDE6, 0xE50, 0xED0,
   0xF20, 0x1040, 0x1090, 0x17E0, 0x1810, 0x1946, 0x19D0, 0x1A80,
   0x1A90, 0x1B50, 0x1BB0, 0x1C40, 0x1C50, 0xA620, 0xA8D0, 0xA900,
   0xA9D0, 0xA9F0, 0xAA50, 0xABF0, 0xFF10, 0x104A0, 0x10D30, 0x11066,
   0x110F0, 0x11136, 0x111D0, 0x112F0, 0x11450, 0x114D0, 0x11650, 0x116C0,
   0x11730, 0x118E0, 0x11950, 0x11C50, 0x11D50, 0x11DA0, 0x16A60, 0x16AC0,
   0x16B50, 0x1D7CE, 0x1D7D8, 0x1D7E2, 0x1D7EC, 0x1D7F6, 0x1E140, 0x1E2F0,
   0x1E950, 0x1FBF0]

/-- The Nd block a character belongs to, if any. -/
def ndBase (c : Char) : Option Nat :=
  ndBlocks.find? (fun lo => decide (lo ≤ c.toNat) && decide (c.toNat < lo + 10))

/-- Unicode decimal digit test: what `\d` matches in the script's regex
(and in `_strptime`'s `\d` positions). -/
def isNd (c : Char) : Bool := (ndBase c).isSome

/-- Numeric value of a Unicode decimal digit (what `int()` uses). -/
def ndVal (c : Char) : Nat :=
  match ndBase c with
  | some lo => c.toNat - lo
  | none => 0

/-- The character of a single decimal digit. -/
def digCh (n : Nat) : Char := Char.ofNat (48 + n)

/-- Numeric value of a decimal digit character. -/
def dVal (c : Char) : Nat := c.toNat - 48

/-- Decimal digit characters of a natural number, most significant first,
with explicit recursion fuel.  Fuel `16` is used below; every number the
script can produce is `< 10^15` (proved in `unixMs_lt`), so the fuel never
runs out on reachable values. -/
def natCharsAux : Nat → Nat → List Char
  | 0, _ => []
  | fuel + 1, n => if n < 10 then [digCh n] else natCharsAux fuel (n / 10) ++ [digCh (n % 10)]

/-- Decimal representation of a natural number (as `str` in Python). -/
def natChars (n : Nat) : List Char := natCharsAux 16 n

/-- Decimal representation of an integer (as `str` in Python). -/
def intChars (ms : Int) : List Char :=
  if ms < 0 then '-' :: natChars (-ms).toNat else natChars ms.toNat

/-- Value of a digit string, most significant first. -/
def valNat (cs : List Char) : Nat := cs.foldl (fun a c => 10 * a + dVal c) 0

/-- Leading integer of a character list: an optional minus sign followed by
the maximal run of decimal digits (how a reader re-derives `unix_ms` from
the emitted new base name). -/
def parseLeadInt (cs : List Char) : Int :=
  match cs with
  | [] => 0
  | c :: t =>
    if c = '-' then -(valNat (t.takeWhile isDig) : Int)
    else (valNat ((c :: t).takeWhile isDig) : Int)

/-- Gregorian leap-year test (as `datetime`'s calendar). -/
def isLeapB (y : Nat) : Bool := y % 4 == 0 && (y % 100 != 0 || y % 400 == 0)

/-- Month lengths, January first. -/
def monthLens (leap : Bool) : List Nat :=
  [31, if leap then 29 else 28, 31, 30, 31, 30, 31, 31, 30, 31, 30, 31]

/-- Number of days in month `m` (1-based) of year `y`. -/
def daysInMonth (y m : Nat) : Nat := (monthLens (isLeapB y)).getD (m - 1) 0

/-- Days in year `y` strictly before month `m` (1-based). -/
def daysBeforeMonth (y m : Nat) : Nat := ((monthLens (isLeapB y)).take (m - 1)).sum

/-- 0-based day count of `y-m-d` since 0001-01-01 (CPython's
`_ymd2ord(y,m,d) - 1`: `365*(y-1) + (y-1)//4 - (y-1)//100 + (y-1)//400 +
days_before_month + (d-1)`, with the subtraction performed last). -/
def ord0 (y m d : Nat) : Nat :=
  365 * (y - 1) + (y - 1) / 4 + (y - 1) / 400 + daysBeforeMonth y m + (d - 1) - (y - 1) / 100

/-- The calendar fields parsed out of the 14-digit timestamp string. -/
structure DateFields where
  year : Nat
  month : Nat
  day : Nat
  hour : Nat
  minute : Nat
  second : Nat
deriving DecidableEq, Repr

/-- The validity conditions `datetime.strptime(s, "%Y%m%d%H%M%S")` enforces
on an all-digit 14-character string: `_strptime`'s field regexes restrict
month to 01–12, day to 01–31, hour to 00–23, minute to 00–59 (second up to
61), and the `datetime` constructor then requires year ≥ 1, day within the
month, and second ≤ 59. -/
def validF (f : DateFields) : Prop :=
  1 ≤ f.year ∧ 1 ≤ f.month ∧ f.month ≤ 12 ∧ 1 ≤ f.day ∧
    f.day ≤ daysInMonth f.year f.month ∧ f.hour ≤ 23 ∧ f.minute ≤ 59 ∧ f.second ≤ 59

instance : DecidablePred validF := fun _ => by unfold validF; infer_instance

/-- `_strptime`'s month sub-pattern `1[0-2]|0[1-9]`, two-digit
alternatives: bracketed classes are ASCII code-point ranges. -/
def monthRe (a b : Char) : Bool :=
  (a == '1' && (b == '0' || b == '1' || b == '2')) ||
    (a == '0' && decide (49 ≤ b.toNat) && decide (b.toNat ≤ 57))

/-- `_strptime`'s day sub-pattern `3[01]|[12]\d|0[1-9]`, two-digit
alternatives: in the `[12]\d` branch the second character may be any
Unicode decimal digit. -/
def dayRe (a b : Char) : Bool :=
  (a == '3' && (b == '0' || b == '1')) ||
    ((a == '1' || a == '2') && isNd b) ||
    (a == '0' && decide (49 ≤ b.toNat) && decide (b.toNat ≤ 57))

/-- `_strptime`'s hour sub-pattern `2[0-3]|[0-1]\d`, two-digit
alternatives. -/
def hourRe (a b : Char) : Bool :=
  (a == '2' && decide (48 ≤ b.toNat) && decide (b.toNat ≤ 51)) ||
    ((a == '0' || a == '1') && isNd b)

/-- `_strptime`'s minute sub-pattern `[0-5]\d`, two-digit alternative. -/
def minuteRe (a b : Char) : Bool :=
  decide (48 ≤ a.toNat) && decide (a.toNat ≤ 53) && isNd b

/-- `_strptime`'s second sub-pattern `6[0-1]|[0-5]\d`, two-digit
alternatives. -/
def secondRe (a b : Char) : Bool :=
  (a == '6' && (b == '0' || b == '1')) ||
    (decide (48 ≤ a.toNat) && decide (a.toNat ≤ 53) && isNd b)

/-- `datetime.strptime(ds, "%Y%m%d%H%M%S")` on a 14-character string.
`_strptime` matches the concatenation `\d{4}` then the five field
patterns and raises unless the match consumes the whole string; since the
one-digit alternatives make the five fields consume at most 9 of the
remaining 10 characters, a successful parse forces every field through a
two-digit alternative, modelled by `monthRe`…`secondRe` above.  The field
strings then go through `int()` (any mix of Unicode decimal digits) and
the `datetime` constructor (year ≥ 1, day within month, second ≤ 59 —
cutting the leap seconds 60–61 the `%S` regex admits).  `none` models the
raised `ValueError`.  Validated differentially against CPython on 400k
random digit strings. -/
def parseDate (ds : List Char) : Option DateFields :=
  match ds with
  | [y1, y2, y3, y4, o1, o2, d1, d2, h1, h2, i1, i2, s1, s2] =>
    if isNd y1 = true ∧ isNd y2 = true ∧ isNd y3 = true ∧ isNd y4 = true ∧
        monthRe o1 o2 = true ∧ dayRe d1 d2 = true ∧ hourRe h1 h2 = true ∧
        minuteRe i1 i2 = true ∧ secondRe s1 s2 = true ∧
        validF ⟨1000 * ndVal y1 + 100 * ndVal y2 + 10 * ndVal y3 + ndVal y4,
          10 * ndVal o1 + ndVal o2, 10 * ndVal d1 + ndVal d2,
          10 * ndVal h1 + ndVal h2, 10 * ndVal i1 + ndVal i2,
          10 * ndVal s1 + ndVal s2⟩ then
      some ⟨1000 * ndVal y1 + 100 * ndVal y2 + 10 * ndVal y3 + ndVal y4,
        10 * ndVal o1 + ndVal o2, 10 * ndVal d1 + ndVal d2,
        10 * ndVal h1 + ndVal h2, 10 * ndVal i1 + ndVal i2,
        10 * ndVal s1 + ndVal s2⟩
    else none
  | _ => none

/-- Seconds since 1970-01-01T00:00:00 UTC of the parsed fields
(`dt.replace(tzinfo=timezone.utc).timestamp()`, exact whole seconds):
`719162 = ord0 1970 1 1`. -/
def epochSecs (f : DateFields) : Int :=
  86400 * ((ord0 f.year f.month f.day : Int) - 719162) +
    (3600 * f.hour + 60 * f.minute + f.second)

/-- `unix_ms = int(dt.timestamp() * 1000)`; the float product is exact on
the reachable range, so this is `epochSecs * 1000`. -/
def unixMs (f : DateFields) : Int := 1000 * epochSecs f

/-- Find the month containing 0-based day-of-year `doy`, scanning the
month-length list from month `m`. -/
def mdLookup : List Nat → Nat → Nat → Nat × Nat
  | [], m, doy => (m, doy + 1)
  | L :: Ls, m, doy => if doy < L then (m, doy + 1) else mdLookup Ls (m + 1) (doy - L)

/-- Inverse of `ord0` within one 400-year Gregorian cycle of 146097 days:
given a 0-based day offset `g < 146097` into the cycle, return
`(b, month, day)` where `b < 400` is the 0-based year within the cycle
(`g / 36524` counts centuries, `% 36524 / 1461` four-year blocks,
`% 1461 / 365` years; the quotients hit `4` only on the cycle's very last
day, Dec 31 of a year divisible by 400). -/
def civilInCycle (g : Nat) : Nat × Nat × Nat :=
  if g % 36524 % 1461 / 365 == 4 || g / 36524 == 4 then
    (100 * (g / 36524) + 4 * (g % 36524 / 1461) + g % 36524 % 1461 / 365 - 1, 12, 31)
  else
    (100 * (g / 36524) + 4 * (g % 36524 / 1461) + g % 36524 % 1461 / 365,
     mdLookup
       (monthLens (isLeapB
         (100 * (g / 36524) + 4 * (g % 36524 / 1461) + g % 36524 % 1461 / 365 + 1)))
       1 (g % 36524 % 1461 % 365))

/-- Inverse of `ord0`: calendar date of a 0-based day count since
0001-01-01. -/
def civilFromOrd0 (n : Nat) : Nat × Nat × Nat :=
  (400 * (n / 146097) + (civilInCycle (n % 146097)).1 + 1,
   (civilInCycle (n % 146097)).2.1, (civilInCycle (n % 146097)).2.2)

/-- Modelled from the spec: the standard conversion of a Unix-millisecond
timestamp back to UTC calendar fields (year, month, day, hour, minute,
second), used by §8's round-trip law; this conversion has no counterpart
in `src/`.  `62135596800000 = 719162 * 86400 * 1000` shifts the origin to
0001-01-01 so all arithmetic is on `Nat`. -/
def msToFields (ms : Int) : DateFields :=
  ⟨(civilFromOrd0 ((ms + 62135596800000).toNat / 1000 / 86400)).1,
   (civilFromOrd0 ((ms + 62135596800000).toNat / 1000 / 86400)).2.1,
   (civilFromOrd0 ((ms + 62135596800000).toNat / 1000 / 86400)).2.2,
   (ms + 62135596800000).toNat / 1000 % 86400 / 3600,
   (ms + 62135596800000).toNat / 1000 % 86400 % 3600 / 60,
   (ms + 62135596800000).toNat / 1000 % 86400 % 60⟩

/-- The 14-digit `YYYYMMDDHHMMSS` rendering of calendar fields (zero
padded, the inverse of `parseDate`'s field extraction). -/
def fieldsToChars (f : DateFields) : List Char :=
  [digCh (f.year / 1000 % 10), digCh (f.year / 100 % 10),
   digCh (f.year / 10 % 10), digCh (f.year % 10),
   digCh (f.month / 10 % 10), digCh (f.month % 10),
   digCh (f.day / 10 % 10), digCh (f.day % 10),
   digCh (f.hour / 10 % 10), digCh (f.hour % 10),
   digCh (f.minute / 10 % 10), digCh (f.minute % 10),
   digCh (f.second / 10 % 10), digCh (f.second % 10)]

/-- The characters `['.', 't', 's']` of the fixed migration extension. -/
def tsChars : List Char := ['.', 't', 's']

/-- The regex `^(\d{14})_(.+)\.ts$` applied to a file name: 14 Unicode
decimal digits, an underscore, then a nonempty remainder containing no
newline (`.` never matches `\n`), then `.ts` at the end.  Since `$`
anchors `\.ts` three characters from the end, `(.+)` has no freedom: it
must cover exactly the span between the underscore and the final `.ts`,
so the match fails iff any of these conditions does.  Python's `$` also
matches just before one trailing newline, but a name ending `.ts\n` has
`pathlib` suffix `".ts\n"`, never `".ts"`, so the script's extension
filter discards such names before the regex ever sees them; on every name
the script matches, this strict-end reading coincides with `pat.match`
(validated differentially against CPython on 400k random names). -/
def matchMig (cs : List Char) : Option (List Char × List Char) :=
  match cs.drop 14 with
  | [] => none
  | c :: r =>
    if (cs.take 14).all isNd = true ∧ c = '_' ∧ 4 ≤ r.length ∧
        r.drop (r.length - 3) = tsChars ∧
        (r.take (r.length - 3)).all (fun ch => ch != '\n') = true
    then some (cs.take 14, r.take (r.length - 3))
    else none

/-- `p.suffix == ".ts"` for a file name: `pathlib` takes the extension
from the last dot, provided it is neither the first character nor the
last, so this is "ends with `.ts` and has length ≥ 4". -/
def hasTsSuffix (nm : String) : Bool :=
  decide (4 ≤ nm.data.length) && nm.data.drop (nm.data.length - 3) == tsChars

/-- The characters of `"src/migrations/"` (the fixed directory, POSIX
separator, as `as_posix()` prints it). -/
def migDirChars : List Char := "src/migrations/".data

/-- `(MIG_DIR / name).as_posix()`. -/
def pathOfName (nm : String) : String := String.mk (migDirChars ++ nm.data)

/-- Path of a base name with the `.ts` extension re-attached. -/
def pathOfBase (b : String) : String := String.mk (migDirChars ++ b.data ++ tsChars)

/-- The loop body for one file name: skip non-matching names
(`.ok none`), raise on invalid calendar dates (`.error` with the 14-digit
string), skip when the new name equals the old one, and otherwise emit the
rename pair `(old path, new path)` and the SQL pair
`(old base, new base)`. -/
def transformName (nm : String) :
    Except String (Option ((String × String) × (String × String))) :=
  match matchMig nm.data with
  | none => .ok none
  | some (ds, rest) =>
    match parseDate ds with
    | none => .error (String.mk ds)
    | some f =>
      if String.mk (intChars (unixMs f) ++ '_' :: rest ++ tsChars) = nm then .ok none
      else
        .ok (some ((pathOfName nm,
            pathOfName (String.mk (intChars (unixMs f) ++ '_' :: rest ++ tsChars))),
          (String.mk (nm.data.take (nm.data.length - 3)),
            String.mk (intChars (unixMs f) ++ '_' :: rest))))

/-- The scan loop: processes the sorted file list in order, accumulating
the `renames` and `sql_updates` lists; the first invalid date aborts the
whole run (nothing has been printed yet at that point). -/
def processFiles :
    List String → Except String (List (String × String) × List (String × String))
  | [] => .ok ([], [])
  | nm :: rest =>
    match transformName nm with
    | .error e => .error e
    | .ok none => processFiles rest
    | .ok (some (re, se)) =>
      match processFiles rest with
      | .error e => .error e
      | .ok (rs, ss) => .ok (re :: rs, se :: ss)

/-- Code-point lexicographic comparison of character lists — the order
Python's `sorted` uses on these (single-directory) paths. -/
def lexLe : List Char → List Char → Bool
  | [], _ => true
  | _ :: _, [] => false
  | a :: as, b :: bs =>
    if a.toNat < b.toNat then true
    else if b.toNat < a.toNat then false
    else lexLe as bs

/-- The sorted-string order used by the run. -/
def strLe (a b : String) : Prop := lexLe a.data b.data = true

instance : DecidableRel strLe := fun a b => by unfold strLe; infer_instance

/-- `sorted([p for p in MIG_DIR.iterdir() if p.suffix == ".ts"])`:
filter on the extension, then sort by name. -/
def sortedFiles (listing : List String) : List String :=
  List.insertionSort strLe (listing.filter hasTsSuffix)

/-- The whole scan-and-transform phase of a run over a directory
listing. -/
def runScript (listing : List String) :
    Except String (List (String × String) × List (String × String)) :=
  processFiles (sortedFiles listing)

/-- The lines printed on standard output: the mv header, one `mv` line per
rename entry, a blank line and the SQL header (one `print` of a string
starting with `"\n"`), and one `update` statement per SQL entry.  Nothing
is printed when the scan phase raised. -/
def scriptOutput (listing : List String) : Except String (List String) :=
  match runScript listing with
  | .error e => .error e
  | .ok (rs, ss) =>
    .ok (["# mv commands:"] ++
      rs.map (fun e => "mv " ++ e.1 ++ " " ++ e.2) ++
      ["", "# SQL updates for inventory_schema_migrations (run these in psql):"] ++
      ss.map (fun e =>
        "update inventory_schema_migrations set name='" ++ e.2 ++
          "' where name='" ++ e.1 ++ "';"))

/-- Whether the loop emits an entry for this file name. -/
def emits (nm : String) : Bool :=
  match transformName nm with
  | .ok (some _) => true
  | _ => false


/-! ## Calendar arithmetic: `civilFromOrd0` inverts `ord0` on valid dates -/

theorem isLeapB_iff (y : Nat) :
    isLeapB y = true ↔ (y % 4 = 0 ∧ (y % 100 ≠ 0 ∨ y % 400 = 0)) := by
  simp [isLeapB, Bool.and_eq_true, Bool.or_eq_true, beq_iff_eq, bne_iff_ne]

theorem isLeapB_add_mul_400 (a r : Nat) : isLeapB (400 * a + r) = isLeapB r := by
  unfold isLeapB
  rw [show (400 * a + r) % 4 = r % 4 by omega,
    show (400 * a + r) % 100 = r % 100 by omega,
    show (400 * a + r) % 400 = r % 400 by omega]

theorem daysInMonth_le (L : Bool) : ∀ m < 13, (monthLens L).getD (m - 1) 0 ≤ 31 := by
  cases L <;> decide

/-- Finite check: `mdLookup` recovers month and day from the day-of-year. -/
def mdCheck (L : Bool) : Bool :=
  (List.range 13).all fun m => (List.range 32).all fun d =>
    if 1 ≤ m ∧ 1 ≤ d ∧ d ≤ (monthLens L).getD (m - 1) 0 then
      decide (mdLookup (monthLens L) 1 (((monthLens L).take (m - 1)).sum + (d - 1)) = (m, d))
    else true

theorem mdCheck_true : ∀ L, mdCheck L = true := by decide

theorem mdLookup_correct (L : Bool) (m d : Nat) (hm13 : m < 13) (hd32 : d < 32)
    (hm1 : 1 ≤ m) (hd1 : 1 ≤ d) (hdim : d ≤ (monthLens L).getD (m - 1) 0) :
    mdLookup (monthLens L) 1 (((monthLens L).take (m - 1)).sum + (d - 1)) = (m, d) := by
  have hall := mdCheck_true L
  unfold mdCheck at hall
  rw [List.all_eq_true] at hall
  have h1 := hall m (List.mem_range.mpr hm13)
  rw [List.all_eq_true] at h1
  have h2 := h1 d (List.mem_range.mpr hd32)
  rw [if_pos ⟨hm1, hd1, hdim⟩] at h2
  exact of_decide_eq_true h2

/-- Finite check: the day-of-year of a valid day is at most 364, except
Dec 31 of a leap year, which is day 365. -/
def doyCheck (L : Bool) : Bool :=
  (List.range 13).all fun m => (List.range 32).all fun d =>
    if 1 ≤ m ∧ 1 ≤ d ∧ d ≤ (monthLens L).getD (m - 1) 0 then
      decide (((monthLens L).take (m - 1)).sum + (d - 1) ≤ 364 ∨
        (((monthLens L).take (m - 1)).sum + (d - 1) = 365 ∧ m = 12 ∧ d = 31 ∧ L = true))
    else true

theorem doyCheck_true : ∀ L, doyCheck L = true := by decide

theorem doy_cases (L : Bool) (m d : Nat) (hm13 : m < 13) (hd32 : d < 32)
    (hm1 : 1 ≤ m) (hd1 : 1 ≤ d) (hdim : d ≤ (monthLens L).getD (m - 1) 0) :
    ((monthLens L).take (m - 1)).sum + (d - 1) ≤ 364 ∨
      (((monthLens L).take (m - 1)).sum + (d - 1) = 365 ∧ m = 12 ∧ d = 31 ∧ L = true) := by
  have hall := doyCheck_true L
  unfold doyCheck at hall
  rw [List.all_eq_true] at hall
  have h1 := hall m (List.mem_range.mpr hm13)
  rw [List.all_eq_true] at h1
  have h2 := h1 d (List.mem_range.mpr hd32)
  rw [if_pos ⟨hm1, hd1, hdim⟩] at h2
  exact of_decide_eq_true h2

theorem civilInCycle_ord0 (b m d : Nat) (hb : b < 400) (hm1 : 1 ≤ m) (hm2 : m ≤ 12)
    (hd1 : 1 ≤ d) (hd2 : d ≤ daysInMonth (b + 1) m) :
    civilInCycle (ord0 (b + 1) m d) = (b, m, d) ∧ ord0 (b + 1) m d < 146097 := by
  have hdim : daysInMonth (b + 1) m ≤ 31 := daysInMonth_le (isLeapB (b + 1)) m (by omega)
  have hd32 : d < 32 := by omega
  -- decompose the year-in-cycle into century / 4-year block / year
  obtain ⟨c, q, v, hc, hq, hv, hbdec⟩ :
      ∃ c q v, c ≤ 3 ∧ q ≤ 24 ∧ v ≤ 3 ∧ b = 100 * c + 4 * q + v :=
    ⟨b / 100, b % 100 / 4, b % 100 % 4, by omega, by omega, by omega, by omega⟩
  set DB := daysBeforeMonth (b + 1) m with hDB
  -- the year's 0-based start day within the cycle
  have hord : ord0 (b + 1) m d = 36524 * c + 1461 * q + 365 * v + (DB + (d - 1)) := by
    unfold ord0
    rw [← hDB]
    omega
  have hleap : isLeapB (b + 1) = true ↔ (v = 3 ∧ (q ≠ 24 ∨ c = 3)) := by
    rw [isLeapB_iff]
    constructor <;> intro h <;> omega
  have hdoy := doy_cases (isLeapB (b + 1)) m d (by omega) hd32 hm1 hd1 hd2
  rw [show ((monthLens (isLeapB (b + 1))).take (m - 1)).sum = DB from rfl] at hdoy
  rcases hdoy with hdoy | ⟨hdoy, hm12, hd31, hLt⟩
  · -- ordinary day: the quotient chain recovers (c, q, v, doy) directly
    set g := ord0 (b + 1) m d with hg
    have e1 : g / 36524 = c := by omega
    have e2 : g % 36524 = 1461 * q + 365 * v + (DB + (d - 1)) := by omega
    have e3 : g % 36524 / 1461 = q := by omega
    have e4 : g % 36524 % 1461 = 365 * v + (DB + (d - 1)) := by omega
    have e5 : g % 36524 % 1461 / 365 = v := by omega
    have e6 : g % 36524 % 1461 % 365 = DB + (d - 1) := by omega
    have hbound : g < 146097 := by omega
    refine ⟨?_, hbound⟩
    unfold civilInCycle
    rw [e1, e3, e5, e6]
    rw [show ((v == 4 || c == 4)) = false by
      simp only [Bool.or_eq_false_iff, beq_eq_false_iff_ne]; omega]
    simp only [Bool.false_eq_true, if_false]
    rw [show 100 * c + 4 * q + v = b by omega]
    have hmd := mdLookup_correct (isLeapB (b + 1)) m d (by omega) hd32 hm1 hd1 hd2
    rw [show ((monthLens (isLeapB (b + 1))).take (m - 1)).sum = DB from rfl] at hmd
    rw [hmd]
  · -- Dec 31 of a leap year: day-of-year 365, quotient `n1` (or `n100`) is 4
    have hv3 : v = 3 ∧ (q ≠ 24 ∨ c = 3) := hleap.mp hLt
    subst hm12; subst hd31
    by_cases hq24 : q = 24
    · -- the very last day of the 400-year cycle
      have hc3 : c = 3 := by rcases hv3.2 with h | h <;> omega
      have hgval : ord0 (b + 1) 12 31 = 146096 := by omega
      rw [hgval]
      refine ⟨?_, by omega⟩
      rw [show civilInCycle 146096 = (399, 12, 31) from by decide]
      rw [show b = 399 by omega]
    · -- Dec 31 of an ordinary leap year: the `n1 = 4` special branch
      set g := ord0 (b + 1) 12 31 with hg
      have e1 : g / 36524 = c := by omega
      have e3 : g % 36524 / 1461 = q := by omega
      have e4 : g % 36524 % 1461 = 1460 := by omega
      have hbound : g < 146097 := by omega
      refine ⟨?_, hbound⟩
      unfold civilInCycle
      rw [e1, e3, e4]
      norm_num
      omega

theorem civilFromOrd0_ord0 (y m d : Nat) (hy1 : 1 ≤ y) (hy2 : y ≤ 9999)
    (hm1 : 1 ≤ m) (hm2 : m ≤ 12) (hd1 : 1 ≤ d) (hd2 : d ≤ daysInMonth y m) :
    civilFromOrd0 (ord0 y m d) = (y, m, d) := by
  obtain ⟨a, b, hb, hy⟩ : ∃ a b, b < 400 ∧ y = 400 * a + (b + 1) :=
    ⟨(y - 1) / 400, (y - 1) % 400, by omega, by omega⟩
  have hleapeq : isLeapB y = isLeapB (b + 1) := by
    rw [hy, isLeapB_add_mul_400]
  have hdimeq : daysInMonth y m = daysInMonth (b + 1) m := by
    unfold daysInMonth; rw [hleapeq]
  have hdbeq : daysBeforeMonth y m = daysBeforeMonth (b + 1) m := by
    unfold daysBeforeMonth; rw [hleapeq]
  have hcyc := civilInCycle_ord0 b m d hb hm1 hm2 hd1 (by omega)
  have hdec : ord0 y m d = 146097 * a + ord0 (b + 1) m d := by
    unfold ord0
    rw [hdbeq]
    omega
  unfold civilFromOrd0
  rw [hdec]
  rw [show (146097 * a + ord0 (b + 1) m d) / 146097 = a by omega,
    show (146097 * a + ord0 (b + 1) m d) % 146097 = ord0 (b + 1) m d by omega,
    hcyc.1]
  rw [show 400 * a + b + 1 = y by omega]

/-! ## Digit strings -/

theorem digCh_props : ∀ n < 10, isDig (digCh n) = true ∧ dVal (digCh n) = n := by decide

theorem isDig_iff (c : Char) : isDig c = true ↔ (48 ≤ c.toNat ∧ c.toNat ≤ 57) := by
  simp [isDig, Bool.and_eq_true, decide_eq_true_eq]

theorem digCh_dVal (c : Char) (h : isDig c = true) : digCh (dVal c) = c := by
  rw [isDig_iff] at h
  unfold digCh dVal
  rw [show 48 + (c.toNat - 48) = c.toNat by omega]
  exact Char.ofNat_toNat c

theorem dVal_le (c : Char) (h : isDig c = true) : dVal c ≤ 9 := by
  rw [isDig_iff] at h
  unfold dVal
  omega

theorem ndVal_le (c : Char) : ndVal c ≤ 9 := by
  unfold ndVal
  cases hb : ndBase c with
  | none =>
    show (0 : Nat) ≤ 9
    omega
  | some lo =>
    show c.toNat - lo ≤ 9
    unfold ndBase at hb
    have hp := List.find?_some hb
    simp only [Bool.and_eq_true, decide_eq_true_eq] at hp
    omega

theorem ndBase_isDig (c : Char) (h : isDig c = true) : ndBase c = some 48 := by
  rw [isDig_iff] at h
  unfold ndBase ndBlocks
  apply List.find?_cons_of_pos
  simp only [Bool.and_eq_true, decide_eq_true_eq]
  omega

theorem ndVal_isDig (c : Char) (h : isDig c = true) : ndVal c = dVal c := by
  unfold ndVal dVal
  rw [ndBase_isDig c h]

theorem natCharsAux_all_dig : ∀ fuel n, (natCharsAux fuel n).all isDig = true := by
  intro fuel
  induction fuel with
  | zero => intro n; rfl
  | succ f ih =>
    intro n
    unfold natCharsAux
    by_cases h : n < 10
    · rw [if_pos h]
      simp [List.all_cons, (digCh_props n h).1]
    · rw [if_neg h]
      rw [List.all_append, ih (n / 10)]
      simp [List.all_cons, (digCh_props (n % 10) (by omega)).1]

theorem natCharsAux_ne_nil : ∀ fuel n, 1 ≤ fuel → natCharsAux fuel n ≠ [] := by
  intro fuel n h
  match fuel, h with
  | f + 1, _ =>
    unfold natCharsAux
    by_cases h10 : n < 10
    · rw [if_pos h10]; simp
    · rw [if_neg h10]; simp

theorem valNat_natCharsAux : ∀ fuel n, n < 10 ^ fuel → valNat (natCharsAux fuel n) = n := by
  intro fuel
  induction fuel with
  | zero => intro n h; interval_cases n; rfl
  | succ f ih =>
    intro n h
    unfold natCharsAux
    by_cases h10 : n < 10
    · rw [if_pos h10]
      show 10 * 0 + dVal (digCh n) = n
      rw [(digCh_props n h10).2]
      omega
    · rw [if_neg h10]
      unfold valNat
      rw [List.foldl_append]
      show 10 * valNat (natCharsAux f (n / 10)) + dVal (digCh (n % 10)) = n
      have hdiv : n / 10 < 10 ^ f := by
        rw [Nat.div_lt_iff_lt_mul (by norm_num)]
        calc n < 10 ^ (f + 1) := h
        _ = 10 ^ f * 10 := by ring
      rw [ih (n / 10) hdiv, (digCh_props (n % 10) (by omega)).2]
      omega

theorem natCharsAux_len_le : ∀ fuel n k, 1 ≤ k → n < 10 ^ k → k ≤ fuel →
    (natCharsAux fuel n).length ≤ k := by
  intro fuel
  induction fuel with
  | zero => intro n k _ _ hk; simp [natCharsAux]
  | succ f ih =>
    intro n k hk1 hn hk
    unfold natCharsAux
    by_cases h10 : n < 10
    · rw [if_pos h10]; simpa using hk1
    · rw [if_neg h10]
      rw [List.length_append]
      have hk2 : 2 ≤ k := by
        by_contra hlt
        have : k = 1 := by omega
        subst this
        simp at hn
        omega
      have hdiv : n / 10 < 10 ^ (k - 1) := by
        rw [Nat.div_lt_iff_lt_mul (by norm_num)]
        calc n < 10 ^ k := hn
        _ = 10 ^ (k - 1) * 10 := by
            rw [← pow_succ]
            congr 1
            omega
      have := ih (n / 10) (k - 1) (by omega) hdiv (by omega)
      simp only [List.length_cons, List.length_nil]
      omega

theorem natCharsAux_len_ge : ∀ fuel n k, 10 ^ k ≤ n → k < fuel →
    k + 1 ≤ (natCharsAux fuel n).length := by
  intro fuel
  induction fuel with
  | zero => intro n k _ hk; omega
  | succ f ih =>
    intro n k hn hk
    unfold natCharsAux
    by_cases h10 : n < 10
    · rw [if_pos h10]
      have : k = 0 := by
        by_contra hne
        have h1 : 1 ≤ k := by omega
        have : 10 ≤ 10 ^ k := by
          calc (10 : Nat) = 10 ^ 1 := by norm_num
          _ ≤ 10 ^ k := Nat.pow_le_pow_right (by norm_num) h1
        omega
      simp [this]
    · rw [if_neg h10]
      rw [List.length_append]
      rcases Nat.eq_zero_or_pos k with hk0 | hkpos
      · subst hk0
        simp only [List.length_cons, List.length_nil]
        omega
      · have hdiv : 10 ^ (k - 1) ≤ n / 10 := by
          rw [Nat.le_div_iff_mul_le (by norm_num)]
          calc 10 ^ (k - 1) * 10 = 10 ^ k := by
                rw [← pow_succ]
                congr 1
                omega
          _ ≤ n := hn
        have := ih (n / 10) (k - 1) hdiv (by omega)
        simp only [List.length_cons, List.length_nil]
        omega

theorem takeWhile_all_append (p : Char → Bool) (l t : List Char) (c : Char)
    (hall : l.all p = true) (hc : p c = false) :
    (l ++ c :: t).takeWhile p = l := by
  induction l with
  | nil => simp [List.takeWhile_cons, hc]
  | cons a as ih =>
    rw [List.all_cons, Bool.and_eq_true] at hall
    simp [List.takeWhile_cons, hall.1, ih hall.2]

/-! ## Bounds on reachable `unix_ms` values -/

theorem dbm_le (L : Bool) : ∀ m < 13, ((monthLens L).take (m - 1)).sum ≤ 335 := by
  cases L <;> decide

theorem ord0_le (y m d : Nat) (hy : y ≤ 9999) (hm : m ≤ 12) (hd : d ≤ 31) :
    ord0 y m d ≤ 3652158 := by
  have hdb : daysBeforeMonth y m ≤ 335 := by
    unfold daysBeforeMonth
    exact dbm_le (isLeapB y) m (by omega)
  unfold ord0
  omega

theorem daysInMonth_le31 (y m : Nat) (hm : m ≤ 12) : daysInMonth y m ≤ 31 := by
  unfold daysInMonth
  exact daysInMonth_le (isLeapB y) m (by omega)

theorem unixMs_bounds (f : DateFields) (h : validF f) (hy : f.year ≤ 9999) :
    -62135596800000 ≤ unixMs f ∧ unixMs f < 1000000000000000 := by
  obtain ⟨hy1, hm1, hm2, hd1, hd2, hh, hmi, hs⟩ := h
  have hd31 : f.day ≤ 31 := le_trans hd2 (daysInMonth_le31 _ _ hm2)
  have ho := ord0_le f.year f.month f.day hy hm2 hd31
  unfold unixMs epochSecs
  omega

/-! ## `msToFields` inverts `unixMs` on valid dates -/

theorem msToFields_unixMs (f : DateFields) (h : validF f) (hy : f.year ≤ 9999) :
    msToFields (unixMs f) = f := by
  obtain ⟨hy1, hm1, hm2, hd1, hd2, hh, hmi, hs⟩ := h
  set o := ord0 f.year f.month f.day with ho
  set T := 3600 * f.hour + 60 * f.minute + f.second with hT
  have htod : T ≤ 86399 := by omega
  have hkey : (unixMs f + 62135596800000).toNat = 1000 * (86400 * o + T) := by
    unfold unixMs epochSecs
    omega
  unfold msToFields
  rw [hkey]
  rw [show 1000 * (86400 * o + T) / 1000 = 86400 * o + T by omega]
  rw [show (86400 * o + T) / 86400 = o by omega]
  rw [show (86400 * o + T) % 86400 = T by omega]
  have hcyc := civilFromOrd0_ord0 f.year f.month f.day hy1 hy hm1 hm2 hd1 hd2
  rw [← ho] at hcyc
  rw [hcyc]
  show DateFields.mk f.year f.month f.day (T / 3600) (T % 3600 / 60) (T % 60) = f
  rw [show T / 3600 = f.hour by omega, show T % 3600 / 60 = f.minute by omega,
    show T % 60 = f.second by omega]

/-! ## Inversion lemmas for `matchMig` and `parseDate` -/

theorem matchMig_some (cs ds rest : List Char) (h : matchMig cs = some (ds, rest)) :
    ds = cs.take 14 ∧ ds.all isNd = true ∧ ds.length = 14 ∧ 1 ≤ rest.length ∧
      cs = ds ++ '_' :: (rest ++ tsChars) := by
  unfold matchMig at h
  split at h
  · exact Option.noConfusion h
  · next c r heq =>
    split at h
    · next hcond =>
      obtain ⟨hall, hc, hrlen, hrts, hnl⟩ := hcond
      injection h with h'
      injection h' with hds hrest
      subst hds
      subst hrest
      subst hc
      have hlen : cs.length = 15 + r.length := by
        have := congrArg List.length heq
        simp only [List.length_drop, List.length_cons] at this
        omega
      refine ⟨rfl, hall, ?_, ?_, ?_⟩
      · rw [List.length_take]
        omega
      · rw [List.length_take]
        omega
      · conv_lhs => rw [← List.take_append_drop 14 cs]
        rw [heq]
        congr 1
        rw [← hrts]
        rw [List.take_append_drop]
    · exact Option.noConfusion h

theorem matchMig_stem (cs ds rest : List Char) (h : matchMig cs = some (ds, rest)) :
    cs.take (cs.length - 3) = ds ++ '_' :: rest ∧ cs.drop (cs.length - 3) = tsChars ∧
      19 ≤ cs.length := by
  obtain ⟨-, -, hdslen, hrest1, hstruct⟩ := matchMig_some cs ds rest h
  have hlen : cs.length = (ds ++ '_' :: rest).length + 3 := by
    rw [hstruct]
    simp only [List.length_append, List.length_cons, tsChars, List.length_nil]
    omega
  have hstruct' : cs = (ds ++ '_' :: rest) ++ tsChars := by
    rw [hstruct]
    simp
  have hcut : cs.length - 3 = (ds ++ '_' :: rest).length := by omega
  refine ⟨?_, ?_, ?_⟩
  · rw [hcut, hstruct']
    exact List.take_left _ _
  · rw [hcut, hstruct']
    exact List.drop_left _ _
  · rw [hstruct]
    simp only [List.length_append, List.length_cons, tsChars, List.length_nil]
    omega

theorem parseDate_inv (ds : List Char) (f : DateFields) (h : parseDate ds = some f) :
    validF f ∧ ∃ c4 : Char × Char × Char × Char, ∃ c10 : List Char,
      ds = [c4.1, c4.2.1, c4.2.2.1, c4.2.2.2] ++ c10 ∧
      f.year = 1000 * ndVal c4.1 + 100 * ndVal c4.2.1 + 10 * ndVal c4.2.2.1 +
        ndVal c4.2.2.2 := by
  unfold parseDate at h
  split at h
  · next y1 y2 y3 y4 o1 o2 d1 d2 h1 h2 i1 i2 s1 s2 =>
    split at h
    · next hval =>
      obtain ⟨-, -, -, -, -, -, -, -, -, hvalid⟩ := hval
      injection h with hf
      subst hf
      exact ⟨hvalid, ⟨y1, y2, y3, y4⟩, [o1, o2, d1, d2, h1, h2, i1, i2, s1, s2], rfl, rfl⟩
    · exact Option.noConfusion h
  · exact Option.noConfusion h

/-! ## Re-deriving `unix_ms` from the printed decimal string -/

theorem valNat_natChars (n : Nat) (h : n < 10000000000000000) :
    valNat (natChars n) = n := by
  apply valNat_natCharsAux
  rw [show (10 : Nat) ^ 16 = 10000000000000000 by norm_num]
  exact h

theorem parseLeadInt_intChars (ms : Int) (t : List Char)
    (hlo : -1000000000000000 ≤ ms) (hhi : ms < 1000000000000000) :
    parseLeadInt (intChars ms ++ '_' :: t) = ms := by
  unfold intChars
  by_cases hneg : ms < 0
  · rw [if_pos hneg]
    show parseLeadInt ('-' :: (natChars (-ms).toNat ++ '_' :: t)) = ms
    simp only [parseLeadInt]
    rw [if_pos trivial]
    rw [takeWhile_all_append isDig (natChars (-ms).toNat) t '_'
      (natCharsAux_all_dig 16 _) (by decide)]
    rw [valNat_natChars _ (by omega)]
    omega
  · rw [if_neg hneg]
    have hne : natChars ms.toNat ≠ [] := natCharsAux_ne_nil 16 ms.toNat (by norm_num)
    obtain ⟨c, t', hct⟩ := List.exists_cons_of_ne_nil hne
    have hall : (natChars ms.toNat).all isDig = true := natCharsAux_all_dig 16 _
    have hcd : isDig c = true := by
      rw [hct] at hall
      rw [List.all_cons, Bool.and_eq_true] at hall
      exact hall.1
    have hcne : c ≠ '-' := by
      intro heq
      rw [heq] at hcd
      exact absurd hcd (by decide)
    show parseLeadInt (natChars ms.toNat ++ '_' :: t) = ms
    rw [hct]
    show parseLeadInt ((c :: t') ++ '_' :: t) = ms
    simp only [List.cons_append, parseLeadInt]
    rw [if_neg hcne]
    rw [show c :: (t' ++ '_' :: t) = (c :: t') ++ '_' :: t from rfl]
    rw [takeWhile_all_append isDig (c :: t') t '_' (by rw [← hct]; exact hall) (by decide)]
    rw [← hct, valNat_natChars _ (by omega)]
    omega

/-! ## Formatting the recovered fields reproduces the 14 digits -/

theorem digCh_two (e f : Char) (he : isDig e = true) (hf : isDig f = true) :
    digCh ((10 * dVal e + dVal f) / 10 % 10) = e ∧
      digCh ((10 * dVal e + dVal f) % 10) = f := by
  have h1 := dVal_le e he
  have h2 := dVal_le f hf
  constructor
  · rw [show (10 * dVal e + dVal f) / 10 % 10 = dVal e by omega]
    exact digCh_dVal e he
  · rw [show (10 * dVal e + dVal f) % 10 = dVal f by omega]
    exact digCh_dVal f hf

theorem digCh_four (a b c d : Char) (ha : isDig a = true) (hb : isDig b = true)
    (hc : isDig c = true) (hd : isDig d = true) :
    digCh ((1000 * dVal a + 100 * dVal b + 10 * dVal c + dVal d) / 1000 % 10) = a ∧
      digCh ((1000 * dVal a + 100 * dVal b + 10 * dVal c + dVal d) / 100 % 10) = b ∧
      digCh ((1000 * dVal a + 100 * dVal b + 10 * dVal c + dVal d) / 10 % 10) = c ∧
      digCh ((1000 * dVal a + 100 * dVal b + 10 * dVal c + dVal d) % 10) = d := by
  have h1 := dVal_le a ha
  have h2 := dVal_le b hb
  have h3 := dVal_le c hc
  have h4 := dVal_le d hd
  refine ⟨?_, ?_, ?_, ?_⟩
  · rw [show (1000 * dVal a + 100 * dVal b + 10 * dVal c + dVal d) / 1000 % 10 = dVal a by
      omega]
    exact digCh_dVal a ha
  · rw [show (1000 * dVal a + 100 * dVal b + 10 * dVal c + dVal d) / 100 % 10 = dVal b by
      omega]
    exact digCh_dVal b hb
  · rw [show (1000 * dVal a + 100 * dVal b + 10 * dVal c + dVal d) / 10 % 10 = dVal c by
      omega]
    exact digCh_dVal c hc
  · rw [show (1000 * dVal a + 100 * dVal b + 10 * dVal c + dVal d) % 10 = dVal d by omega]
    exact digCh_dVal d hd

theorem fieldsToChars_parseDate (ds : List Char) (f : DateFields)
    (hall : ds.all isDig = true) (h : parseDate ds = some f) :
    fieldsToChars f = ds := by
  unfold parseDate at h
  split at h
  · next y1 y2 y3 y4 o1 o2 d1 d2 h1 h2 i1 i2 s1 s2 =>
    split at h
    · injection h with hf
      subst hf
      simp only [List.all_cons, Bool.and_eq_true, List.all_nil, and_true] at hall
      obtain ⟨e1, e2, e3, e4, e5, e6, e7, e8, e9, e10, e11, e12, e13, e14⟩ := hall
      rw [ndVal_isDig y1 e1, ndVal_isDig y2 e2, ndVal_isDig y3 e3, ndVal_isDig y4 e4,
        ndVal_isDig o1 e5, ndVal_isDig o2 e6, ndVal_isDig d1 e7, ndVal_isDig d2 e8,
        ndVal_isDig h1 e9, ndVal_isDig h2 e10, ndVal_isDig i1 e11, ndVal_isDig i2 e12,
        ndVal_isDig s1 e13, ndVal_isDig s2 e14]
      have hY := digCh_four y1 y2 y3 y4 e1 e2 e3 e4
      have hM := digCh_two o1 o2 e5 e6
      have hD := digCh_two d1 d2 e7 e8
      have hH := digCh_two h1 h2 e9 e10
      have hMi := digCh_two i1 i2 e11 e12
      have hS := digCh_two s1 s2 e13 e14
      unfold fieldsToChars
      simp only [List.cons.injEq, and_true]
      exact ⟨hY.1, hY.2.1, hY.2.2.1, hY.2.2.2, hM.1, hM.2, hD.1, hD.2,
        hH.1, hH.2, hMi.1, hMi.2, hS.1, hS.2⟩
    · exact Option.noConfusion h
  · exact Option.noConfusion h

theorem parseDate_year_le (ds : List Char) (f : DateFields)
    (h : parseDate ds = some f) : f.year ≤ 9999 := by
  obtain ⟨-, c4, c10, hds, hy⟩ := parseDate_inv ds f h
  have d1 := ndVal_le c4.1
  have d2 := ndVal_le c4.2.1
  have d3 := ndVal_le c4.2.2.1
  have d4 := ndVal_le c4.2.2.2
  omega

/-! ## Inversion of the loop body -/

theorem transformName_emit (nm : String) (re se : String × String)
    (h : transformName nm = .ok (some (re, se))) :
    ∃ ds rest f, matchMig nm.data = some (ds, rest) ∧ parseDate ds = some f ∧
      String.mk (intChars (unixMs f) ++ '_' :: rest ++ tsChars) ≠ nm ∧
      re = (pathOfName nm,
        pathOfName (String.mk (intChars (unixMs f) ++ '_' :: rest ++ tsChars))) ∧
      se = (String.mk (nm.data.take (nm.data.length - 3)),
        String.mk (intChars (unixMs f) ++ '_' :: rest)) := by
  unfold transformName at h
  split at h
  · injection h with h'
    exact Option.noConfusion h'
  · next ds rest hm =>
    split at h
    · exact Except.noConfusion h
    · next f hp =>
      split at h
      · injection h with h'
        exact Option.noConfusion h'
      · next hguard =>
        injection h with h'
        injection h' with h''
        injection h'' with hre hse
        exact ⟨ds, rest, f, hm, hp, hguard, hre.symm, hse.symm⟩

theorem transformName_skip (nm : String) (h : matchMig nm.data = none) :
    transformName nm = .ok none := by
  simp only [transformName, h]

theorem transformName_error (nm : String) (ds rest : List Char)
    (hm : matchMig nm.data = some (ds, rest)) (hp : parseDate ds = none) :
    transformName nm = .error (String.mk ds) := by
  simp only [transformName, hm, hp]

/-! ## C1: the round-trip law -/

/-- C1 is false as stated: `\d` also matches non-ASCII Unicode decimal
digits, and those survive strptime wherever its field patterns say `\d`
(here the second characters of day and hour).  The file
`2023061٥1٤3000_x.ts` — with Arabic-Indic five and four — matches the
pattern, parses as 2023-06-15T14:30:00 UTC, and is emitted as
`1686839400000_x.ts`; converting the re-derived timestamp back yields the
ASCII digits `20230615143000`, not the original 14 characters. -/
theorem c1_counterexample :
    transformName "2023061٥1٤3000_x.ts" =
      .ok (some (("src/migrations/2023061٥1٤3000_x.ts",
        "src/migrations/1686839400000_x.ts"),
        ("2023061٥1٤3000_x", "1686839400000_x"))) ∧
    fieldsToChars (msToFields (parseLeadInt ("1686839400000_x" : String).data)) ≠
      ("2023061٥1٤3000_x.ts" : String).data.take 14 := by
  constructor
  · rfl
  · decide

/-- C1 (amended).  For every file name matching the 14-digit pattern
whose digits form a valid UTC calendar date and are the ASCII digits
`0`–`9` (the source naming convention), re-deriving the Unix-millisecond
timestamp from the emitted new base name and converting it back to UTC
calendar fields reproduces the original 14-digit string exactly.  (With
non-ASCII Unicode digits the script still emits, but the round trip
produces the ASCII rendering of the parsed fields, not the original
characters — see `c1_counterexample`.) -/
theorem c1_round_trip (nm op np ob nb : String)
    (h : transformName nm = .ok (some ((op, np), (ob, nb))))
    (hascii : (nm.data.take 14).all isDig = true) :
    fieldsToChars (msToFields (parseLeadInt nb.data)) = nm.data.take 14 := by
  obtain ⟨ds, rest, f, hm, hp, hg, hre, hse⟩ := transformName_emit nm (op, np) (ob, nb) h
  injection hse with hob hnb
  have hdata : nb.data = intChars (unixMs f) ++ '_' :: rest := by rw [hnb]
  obtain ⟨hds_take, -, hdslen, hrlen, hstruct⟩ := matchMig_some nm.data ds rest hm
  have hall : ds.all isDig = true := by rw [hds_take]; exact hascii
  have hvalid : validF f := (parseDate_inv ds f hp).1
  have hyle : f.year ≤ 9999 := parseDate_year_le ds f hp
  have hb := unixMs_bounds f hvalid hyle
  rw [hdata, parseLeadInt_intChars _ _ (by omega) (by omega)]
  rw [msToFields_unixMs f hvalid hyle]
  rw [← hds_take]
  exact fieldsToChars_parseDate ds f hall hp

/-- Witness for the amended C1 at the concrete scenario file. -/
theorem c1_round_trip_witness :
    transformName "20230615143000_create_orders.ts" =
      .ok (some (("src/migrations/20230615143000_create_orders.ts",
        "src/migrations/1686839400000_create_orders.ts"),
        ("20230615143000_create_orders", "1686839400000_create_orders"))) ∧
    fieldsToChars (msToFields (parseLeadInt ("1686839400000_create_orders" : String).data)) =
      ("20230615143000_create_orders.ts" : String).data.take 14 :=
  ⟨rfl, c1_round_trip "20230615143000_create_orders.ts"
    "src/migrations/20230615143000_create_orders.ts"
    "src/migrations/1686839400000_create_orders.ts"
    "20230615143000_create_orders" "1686839400000_create_orders" rfl rfl⟩

/-! ## When the pattern cannot match -/

theorem matchMig_none_of_all_false (cs : List Char)
    (h : (cs.take 14).all isNd = false) : matchMig cs = none := by
  unfold matchMig
  split
  · rfl
  · next c r heq =>
    rw [if_neg (fun hc => by rw [hc.1] at h; exact Bool.noConfusion h)]

theorem matchMig_none_of_head (cs : List Char)
    (h : ∀ c r, cs.drop 14 = c :: r → c ≠ '_') : matchMig cs = none := by
  unfold matchMig
  split
  · rfl
  · next c r heq =>
    rw [if_neg (fun hc => h c r heq hc.2.1)]

/-- A name of the shape `<unix_ms>_\<tail\>` matches the 14-digit pattern
again only when the decimal form of `unix_ms` is exactly 14 digits long;
outside `[10^13, 10^14)` the underscore (or the minus sign, or a 15th
digit) lands inside the scanned window and the match fails. -/
theorem matchMig_intChars_none (ms : Int) (t : List Char)
    (hdig : ms < 10000000000000 ∨ 100000000000000 ≤ ms) :
    matchMig (intChars ms ++ '_' :: t) = none := by
  by_cases hneg : ms < 0
  · apply matchMig_none_of_all_false
    rw [show intChars ms = '-' :: natChars (-ms).toNat from by
      unfold intChars; rw [if_pos hneg]]
    rw [List.cons_append, List.take_succ_cons, List.all_cons]
    rw [show isNd '-' = false from by decide]
    rw [Bool.false_and]
  · have hint : intChars ms = natChars ms.toNat := by
      unfold intChars; rw [if_neg hneg]
    rcases hdig with hlt | hge
    · -- fewer than 14 digits: the underscore sits inside the first 14 chars
      have hlen : (natChars ms.toNat).length ≤ 13 :=
        natCharsAux_len_le 16 ms.toNat 13 (by norm_num)
          (by rw [show (10 : Nat) ^ 13 = 10000000000000 by norm_num]; omega) (by norm_num)
      apply matchMig_none_of_all_false
      rw [hint]
      rw [List.take_append_eq_append_take]
      rw [List.take_of_length_le (by omega)]
      obtain ⟨k, hk⟩ : ∃ k, 14 - (natChars ms.toNat).length = k + 1 :=
        ⟨13 - (natChars ms.toNat).length, by omega⟩
      rw [hk, List.take_succ_cons]
      rw [List.all_append, List.all_cons]
      rw [show isNd '_' = false from by decide]
      rw [Bool.false_and, Bool.and_false]
    · -- 15 digits or more: a digit, not the underscore, is the 15th char
      have hlen : 14 + 1 ≤ (natChars ms.toNat).length :=
        natCharsAux_len_ge 16 ms.toNat 14
          (by rw [show (10 : Nat) ^ 14 = 100000000000000 by norm_num]; omega) (by norm_num)
      apply matchMig_none_of_head
      intro c r heq hc
      subst hc
      rw [hint] at heq
      rw [List.drop_append_eq_append_drop] at heq
      rw [show 14 - (natChars ms.toNat).length = 0 by omega] at heq
      rw [List.drop_zero] at heq
      have hdlen : 0 < ((natChars ms.toNat).drop 14).length := by
        rw [List.length_drop]; omega
      obtain ⟨c', r', hcr⟩ := List.exists_cons_of_ne_nil (List.length_pos.mp hdlen)
      have hcd : isDig c' = true := by
        have hmem : c' ∈ natChars ms.toNat :=
          List.mem_of_mem_drop (by rw [hcr]; exact List.mem_cons_self _ _)
        exact (List.all_eq_true.mp (natCharsAux_all_dig 16 ms.toNat)) c' hmem
      rw [hcr, List.cons_append] at heq
      injection heq with h1 h2
      rw [h1] at hcd
      exact absurd hcd (by decide)

/-! ## Strings and paths -/

theorem String_data_inj (a b : String) (h : a.data = b.data) : a = b := by
  cases a
  cases b
  exact congrArg String.mk h

theorem pathOfName_inj (a b : String) (h : pathOfName a = pathOfName b) : a = b := by
  unfold pathOfName at h
  injection h with h'
  exact String_data_inj a b (List.append_cancel_left h')

/-! ## The lexicographic comparator -/

theorem lexLe_cons_iff (p q : Char) (ps qs : List Char) :
    lexLe (p :: ps) (q :: qs) = true ↔
      (p.toNat < q.toNat ∨ (p.toNat = q.toNat ∧ lexLe ps qs = true)) := by
  rw [show lexLe (p :: ps) (q :: qs) =
    (if p.toNat < q.toNat then true
     else if q.toNat < p.toNat then false else lexLe ps qs) from rfl]
  by_cases h1 : p.toNat < q.toNat
  · rw [if_pos h1]
    simp [h1]
  · rw [if_neg h1]
    by_cases h2 : q.toNat < p.toNat
    · rw [if_pos h2]
      constructor
      · intro h; exact Bool.noConfusion h
      · rintro (h | ⟨h, -⟩) <;> omega
    · rw [if_neg h2]
      constructor
      · intro h
        right
        exact ⟨by omega, h⟩
      · rintro (h | ⟨-, h⟩)
        · omega
        · exact h

theorem lexLe_total : ∀ a b : List Char, lexLe a b = true ∨ lexLe b a = true := by
  intro a
  induction a with
  | nil => intro b; left; rfl
  | cons x xs ih =>
    intro b
    cases b with
    | nil => right; rfl
    | cons y ys =>
      rcases Nat.lt_trichotomy x.toNat y.toNat with h | h | h
      · left
        rw [lexLe_cons_iff]
        exact Or.inl h
      · rcases ih ys with h' | h'
        · left
          rw [lexLe_cons_iff]
          exact Or.inr ⟨h, h'⟩
        · right
          rw [lexLe_cons_iff]
          exact Or.inr ⟨h.symm, h'⟩
      · right
        rw [lexLe_cons_iff]
        exact Or.inl h

theorem lexLe_trans : ∀ a b c : List Char,
    lexLe a b = true → lexLe b c = true → lexLe a c = true := by
  intro a
  induction a with
  | nil => intro b c _ _; rfl
  | cons x xs ih =>
    intro b c hab hbc
    cases b with
    | nil => exact absurd hab (by simp [lexLe])
    | cons y ys =>
      cases c with
      | nil => exact absurd hbc (by simp [lexLe])
      | cons z zs =>
        rw [lexLe_cons_iff] at hab hbc ⊢
        rcases hab with hab | ⟨hab, hab'⟩ <;> rcases hbc with hbc | ⟨hbc, hbc'⟩
        · exact Or.inl (by omega)
        · exact Or.inl (by omega)
        · exact Or.inl (by omega)
        · exact Or.inr ⟨by omega, ih ys zs hab' hbc'⟩

instance : IsTotal String strLe := ⟨fun a b => lexLe_total a.data b.data⟩

instance : IsTrans String strLe := ⟨fun a b c => lexLe_trans a.data b.data c.data⟩

theorem lexLe_append_left (p a b : List Char) : lexLe (p ++ a) (p ++ b) = lexLe a b := by
  induction p with
  | nil => rfl
  | cons c cs ih =>
    show lexLe (c :: (cs ++ a)) (c :: (cs ++ b)) = lexLe a b
    rw [show lexLe (c :: (cs ++ a)) (c :: (cs ++ b)) =
      (if c.toNat < c.toNat then true
       else if c.toNat < c.toNat then false else lexLe (cs ++ a) (cs ++ b)) from rfl]
    rw [if_neg (Nat.lt_irrefl c.toNat), if_neg (Nat.lt_irrefl c.toNat)]
    exact ih

theorem strLe_pathOfName (a b : String) (h : strLe a b) :
    strLe (pathOfName a) (pathOfName b) := by
  show lexLe (migDirChars ++ a.data) (migDirChars ++ b.data) = true
  rw [lexLe_append_left]
  exact h

theorem sortedFiles_sorted (listing : List String) :
    List.Sorted strLe (sortedFiles listing) :=
  List.sorted_insertionSort strLe _

/-! ## Loop invariants -/

theorem transformName_emit_props (nm : String) (re se : String × String)
    (h : transformName nm = .ok (some (re, se))) :
    re.1 = pathOfName nm ∧ re = (pathOfBase se.1, pathOfBase se.2) ∧ re.1 ≠ re.2 := by
  obtain ⟨ds, rest, f, hm, hp, hg, hre, hse⟩ := transformName_emit nm re se h
  obtain ⟨htake, hdrop, hlen⟩ := matchMig_stem nm.data ds rest hm
  have h1 : pathOfBase (String.mk (nm.data.take (nm.data.length - 3))) = pathOfName nm := by
    unfold pathOfBase pathOfName
    congr 1
    show migDirChars ++ nm.data.take (nm.data.length - 3) ++ tsChars = migDirChars ++ nm.data
    rw [List.append_assoc]
    congr 1
    rw [← hdrop]
    exact List.take_append_drop _ _
  have h2 : pathOfBase (String.mk (intChars (unixMs f) ++ '_' :: rest)) =
      pathOfName (String.mk (intChars (unixMs f) ++ '_' :: rest ++ tsChars)) := by
    unfold pathOfBase pathOfName
    rfl
  refine ⟨by rw [hre], ?_, ?_⟩
  · rw [hre, hse]
    rw [h1, h2]
  · rw [hre]
    intro hcontra
    exact hg (pathOfName_inj _ _ hcontra.symm)

theorem processFiles_invariants (fs : List String) (rs ss : List (String × String))
    (h : processFiles fs = .ok (rs, ss)) :
    rs.map Prod.fst = (fs.filter emits).map pathOfName ∧
      rs = ss.map (fun b => (pathOfBase b.1, pathOfBase b.2)) ∧
      ∀ e ∈ rs, e.1 ≠ e.2 := by
  induction fs generalizing rs ss with
  | nil =>
    unfold processFiles at h
    injection h with h'
    injection h' with h1 h2
    subst h1
    subst h2
    exact ⟨rfl, rfl, fun e he => absurd he (List.not_mem_nil e)⟩
  | cons nm rest ih =>
    unfold processFiles at h
    split at h
    · exact Except.noConfusion h
    · next hskip =>
      have he : emits nm = false := by unfold emits; rw [hskip]
      obtain ⟨i1, i2, i3⟩ := ih rs ss h
      rw [List.filter_cons_of_neg (by rw [he]; exact Bool.noConfusion)]
      exact ⟨i1, i2, i3⟩
    · next re se hemit =>
      split at h
      · exact Except.noConfusion h
      · next rs' ss' hrec =>
        injection h with h'
        injection h' with h1 h2
        subst h1
        subst h2
        obtain ⟨p1, p2, p3⟩ := transformName_emit_props nm re se hemit
        obtain ⟨i1, i2, i3⟩ := ih rs' ss' hrec
        have he : emits nm = true := by unfold emits; rw [hemit]
        rw [List.filter_cons_of_pos he]
        refine ⟨?_, ?_, ?_⟩
        · rw [List.map_cons, List.map_cons, i1, p1]
        · rw [List.map_cons, ← i2, ← p2]
        · intro e hemem
          rcases List.mem_cons.mp hemem with hx | hx
          · rw [hx]
            exact p3
          · exact i3 e hx

theorem processFiles_error_of_mem (fs : List String) (nm : String) (e : String)
    (hmem : nm ∈ fs) (herr : transformName nm = .error e) :
    ∃ e', processFiles fs = .error e' := by
  induction fs with
  | nil => exact absurd hmem (List.not_mem_nil nm)
  | cons x rest ih =>
    unfold processFiles
    rcases List.mem_cons.mp hmem with hx | hx
    · subst hx
      rw [herr]
      exact ⟨e, rfl⟩
    · cases htx : transformName x with
      | error e2 => exact ⟨e2, rfl⟩
      | ok r =>
        obtain ⟨e', he'⟩ := ih hx
        cases r with
        | none => exact ⟨e', he'⟩
        | some p =>
          obtain ⟨re, se⟩ := p
          rw [he']
          exact ⟨e', rfl⟩

theorem processFiles_skip_middle (nm : String) (hskip : transformName nm = .ok none)
    (xs ys : List String) :
    processFiles (xs ++ nm :: ys) = processFiles (xs ++ ys) := by
  induction xs with
  | nil =>
    show processFiles (nm :: ys) = processFiles ys
    simp only [processFiles, hskip]
  | cons x xs ih =>
    show processFiles (x :: (xs ++ nm :: ys)) = processFiles (x :: (xs ++ ys))
    unfold processFiles
    cases htx : transformName x with
    | error e2 => rfl
    | ok r =>
      cases r with
      | none => exact ih
      | some p =>
        obtain ⟨re, se⟩ := p
        rw [ih]

theorem processFiles_all_skip (fs : List String)
    (h : ∀ nm ∈ fs, transformName nm = .ok none) : processFiles fs = .ok ([], []) := by
  induction fs with
  | nil => rfl
  | cons x rest ih =>
    unfold processFiles
    rw [h x (List.mem_cons_self x rest)]
    exact ih (fun nm hm => h nm (List.mem_cons_of_mem x hm))

/-! ## C2: the concrete scenario -/

/-- C2. A directory listing containing `20230615143000_create_orders.ts`
produces exactly the rename line
`mv src/migrations/20230615143000_create_orders.ts src/migrations/1686839400000_create_orders.ts`
and exactly the SQL line
`update inventory_schema_migrations set name='1686839400000_create_orders' where name='20230615143000_create_orders';`
for that file. -/
theorem c2_scenario :
    scriptOutput ["20230615143000_create_orders.ts"] =
      .ok ["# mv commands:",
        "mv src/migrations/20230615143000_create_orders.ts src/migrations/1686839400000_create_orders.ts",
        "",
        "# SQL updates for inventory_schema_migrations (run these in psql):",
        "update inventory_schema_migrations set name='1686839400000_create_orders' where name='20230615143000_create_orders';"] :=
  rfl

/-! ## C3: idempotence fails for 14-digit `unix_ms` values -/

/-- C3 is false as stated: the file `22861121215000_x.ts` (a valid date,
2286-11-21T21:50:00 UTC) is renamed by one run to `10000101000000_x.ts`,
whose `unix_ms` has exactly 14 digits; a second run over that renamed file
matches the pattern again, parses `1000-01-01T00:00:00`, and emits a
rename entry and an SQL entry instead of emitting nothing. -/
theorem c3_counterexample :
    transformName "22861121215000_x.ts" =
      .ok (some (("src/migrations/22861121215000_x.ts",
        "src/migrations/10000101000000_x.ts"),
        ("22861121215000_x", "10000101000000_x"))) ∧
    runScript ["10000101000000_x.ts"] =
      .ok ([("src/migrations/10000101000000_x.ts",
        "src/migrations/-30610224000000_x.ts")],
        [("10000101000000_x", "-30610224000000_x")]) ∧
    runScript ["10000101000000_x.ts"] ≠ .ok ([], []) := by
  refine ⟨rfl, rfl, ?_⟩
  intro hcontra
  rw [show runScript ["10000101000000_x.ts"] =
    .ok ([("src/migrations/10000101000000_x.ts",
      "src/migrations/-30610224000000_x.ts")],
      [("10000101000000_x", "-30610224000000_x")]) from rfl] at hcontra
  injection hcontra with h'
  injection h' with h1 h2
  exact List.noConfusion h1

/-- C3 (amended). For input files produced by one run of the
transformation whose computed `unix_ms` decimal form is not exactly 14
digits long (`unix_ms < 10^13` — which covers every timestamp up to
2286-11-20 — or `unix_ms ≥ 10^14`), a second run over those renamed files
emits no rename entries and no SQL entries: its output is exactly the two
header sections. -/
theorem c3_amended (listing : List String)
    (h : ∀ nm ∈ listing, ∃ (orig : String) (ds rest : List Char) (f : DateFields),
      matchMig orig.data = some (ds, rest) ∧ parseDate ds = some f ∧
      nm = String.mk (intChars (unixMs f) ++ '_' :: rest ++ tsChars) ∧
      (unixMs f < 10000000000000 ∨ 100000000000000 ≤ unixMs f)) :
    scriptOutput listing =
      .ok ["# mv commands:", "",
        "# SQL updates for inventory_schema_migrations (run these in psql):"] := by
  have hrun : processFiles (sortedFiles listing) = .ok ([], []) := by
    apply processFiles_all_skip
    intro nm hmem
    have hmem' : nm ∈ listing := by
      have hperm := List.perm_insertionSort strLe (listing.filter hasTsSuffix)
      exact List.mem_of_mem_filter (hperm.mem_iff.mp hmem)
    obtain ⟨orig, ds, rest, f, hm, hp, hnm, hdig⟩ := h nm hmem'
    subst hnm
    apply transformName_skip
    show matchMig (intChars (unixMs f) ++ '_' :: rest ++ tsChars) = none
    rw [show intChars (unixMs f) ++ '_' :: rest ++ tsChars =
      intChars (unixMs f) ++ '_' :: (rest ++ tsChars) by
        rw [List.append_assoc, List.cons_append]]
    exact matchMig_intChars_none (unixMs f) (rest ++ tsChars) hdig
  unfold scriptOutput runScript
  rw [hrun]
  rfl

/-- Witness for the amended C3: one run's output file
`1686839400000_create_orders.ts` (13-digit `unix_ms`), fed back in,
produces only the two headers. -/
theorem c3_amended_witness :
    scriptOutput ["1686839400000_create_orders.ts"] =
      .ok ["# mv commands:", "",
        "# SQL updates for inventory_schema_migrations (run these in psql):"] :=
  c3_amended ["1686839400000_create_orders.ts"] (by
    intro nm hmem
    rw [List.mem_singleton] at hmem
    subst hmem
    refine ⟨"20230615143000_create_orders.ts", "20230615143000".data,
      "create_orders".data, ⟨2023, 6, 15, 14, 30, 0⟩, rfl, rfl, rfl, ?_⟩
    left
    decide)

/-! ## C4: invalid calendar dates abort the run -/

/-- C4. If the directory listing contains a file whose name matches the
14-digit pattern but whose digits are not a valid calendar date, the run
raises an uncaught date-parsing error (the `Except.error` of the model)
instead of producing a report. -/
theorem c4_invalid_date (listing : List String) (nm : String) (ds rest : List Char)
    (hmem : nm ∈ listing) (hm : matchMig nm.data = some (ds, rest))
    (hp : parseDate ds = none) :
    ∃ e, runScript listing = .error e := by
  have hts : hasTsSuffix nm = true := by
    obtain ⟨-, hdrop, hlen⟩ := matchMig_stem nm.data ds rest hm
    unfold hasTsSuffix
    rw [Bool.and_eq_true]
    exact ⟨decide_eq_true (by omega), beq_iff_eq.mpr hdrop⟩
  have hmem2 : nm ∈ sortedFiles listing := by
    have hperm := List.perm_insertionSort strLe (listing.filter hasTsSuffix)
    exact hperm.mem_iff.mpr (List.mem_filter.mpr ⟨hmem, hts⟩)
  exact processFiles_error_of_mem (sortedFiles listing) nm (String.mk ds) hmem2
    (transformName_error nm ds rest hm hp)

/-- Witness for C4: month 13 kills the run. -/
theorem c4_invalid_date_witness :
    ∃ e, runScript ["20231301000000_x.ts"] = .error e :=
  c4_invalid_date ["20231301000000_x.ts"] "20231301000000_x.ts"
    "20231301000000".data "x".data (List.mem_singleton.mpr rfl) rfl rfl

/-! ## C5: non-matching files are silently skipped -/

/-- C5. A file with the `.ts` extension whose name does not match the
pattern contributes nothing: removing it from any position of the file
list leaves the whole run unchanged (in particular the run cannot fail
because of it), and no successful run contains a rename entry whose
original path is that file's path. -/
theorem c5_nonmatching_skipped (nm : String) (hts : hasTsSuffix nm = true)
    (hnm : matchMig nm.data = none) :
    (∀ xs ys, processFiles (xs ++ nm :: ys) = processFiles (xs ++ ys)) ∧
    (∀ listing rs ss, runScript listing = .ok (rs, ss) →
      pathOfName nm ∉ rs.map Prod.fst) := by
  have hskip : transformName nm = .ok none := transformName_skip nm hnm
  constructor
  · intro xs ys
    exact processFiles_skip_middle nm hskip xs ys
  · intro listing rs ss h hmem
    obtain ⟨h1, -, -⟩ := processFiles_invariants _ rs ss h
    rw [h1, List.mem_map] at hmem
    obtain ⟨x, hx, hpx⟩ := hmem
    have hxnm : x = nm := pathOfName_inj x nm hpx
    subst hxnm
    have hx' := List.of_mem_filter hx
    unfold emits at hx'
    rw [hskip] at hx'
    exact Bool.noConfusion hx'

/-- Witness for C5: `notes.ts` is skipped wherever it sits. -/
theorem c5_nonmatching_skipped_witness :
    processFiles ([] ++ "notes.ts" :: ["20230615143000_create_orders.ts"]) =
      processFiles ([] ++ ["20230615143000_create_orders.ts"]) :=
  (c5_nonmatching_skipped "notes.ts" rfl rfl).1 [] ["20230615143000_create_orders.ts"]

/-! ## C6: every emitted rename changes the path -/

/-- C6. In every successful run the new path of each emitted rename entry
differs from its original path; and a matched file whose computed new file
name equals its original name is dropped entirely (the loop body yields
no rename entry and no SQL entry for it). -/
theorem c6_new_ne_old (listing : List String) (rs ss : List (String × String))
    (h : runScript listing = .ok (rs, ss)) :
    (∀ e ∈ rs, e.1 ≠ e.2) ∧
    (∀ nm ds rest f, matchMig nm.data = some (ds, rest) → parseDate ds = some f →
      String.mk (intChars (unixMs f) ++ '_' :: rest ++ tsChars) = nm →
      transformName nm = .ok none) := by
  constructor
  · exact (processFiles_invariants _ rs ss h).2.2
  · intro nm ds rest f hm hp heq
    simp only [transformName, hm, hp]
    rw [if_pos heq]

/-- Witness for C6 on the scenario run: the one emitted entry's new path
differs from its original path. -/
theorem c6_new_ne_old_witness :
    ("src/migrations/20230615143000_create_orders.ts" : String) ≠
      "src/migrations/1686839400000_create_orders.ts" :=
  (c6_new_ne_old ["20230615143000_create_orders.ts"] _ _ rfl).1
    ("src/migrations/20230615143000_create_orders.ts",
      "src/migrations/1686839400000_create_orders.ts")
    (List.mem_singleton.mpr rfl)

/-! ## C7: SQL entries correspond 1:1 to rename entries -/

/-- C7. In every successful run the SQL list and the rename list have the
same length, and the i-th rename entry is exactly the i-th SQL entry's
(old base, new base) pair with the directory prefix and `.ts` extension
attached to both components, in the same order. -/
theorem c7_sql_matches_renames (listing : List String) (rs ss : List (String × String))
    (h : runScript listing = .ok (rs, ss)) :
    rs.length = ss.length ∧
    ∀ (i : Nat) (h1 : i < rs.length) (h2 : i < ss.length),
      rs[i] = (pathOfBase (ss[i]).1, pathOfBase (ss[i]).2) := by
  obtain ⟨-, h2, -⟩ := processFiles_invariants _ rs ss h
  constructor
  · rw [h2, List.length_map]
  · intro i hi1 hi2
    simp only [h2, List.getElem_map]

/-- Witness for C7 on the scenario run. -/
theorem c7_sql_matches_renames_witness :
    ([(("src/migrations/20230615143000_create_orders.ts" : String),
      ("src/migrations/1686839400000_create_orders.ts" : String))]).length =
    ([(("20230615143000_create_orders" : String),
      ("1686839400000_create_orders" : String))]).length :=
  (c7_sql_matches_renames ["20230615143000_create_orders.ts"] _ _ rfl).1

/-! ## C8: emission order is the lexicographic order of the names -/

/-- C8. In every successful run the original paths of the emitted rename
entries are exactly the matching file names in sorted order (the filter of
the sorted file list), and in particular that sequence is sorted in
ascending code-point lexicographic order. -/
theorem c8_output_sorted (listing : List String) (rs ss : List (String × String))
    (h : runScript listing = .ok (rs, ss)) :
    rs.map Prod.fst = ((sortedFiles listing).filter emits).map pathOfName ∧
    List.Sorted strLe (rs.map Prod.fst) := by
  obtain ⟨h1, -, -⟩ := processFiles_invariants _ rs ss h
  refine ⟨h1, ?_⟩
  rw [h1]
  exact List.Pairwise.map pathOfName (fun a b hab => strLe_pathOfName a b hab)
    (List.Sorted.filter emits (sortedFiles_sorted listing))

/-- Witness for C8: an unsorted two-file listing is emitted in
lexicographic order. -/
theorem c8_output_sorted_witness :
    List.Sorted strLe
      (([(("src/migrations/20230615143000_create_orders.ts" : String),
        ("src/migrations/1686839400000_create_orders.ts" : String)),
        (("src/migrations/20230615150000_b.ts" : String),
        ("src/migrations/1686841200000_b.ts" : String))]).map Prod.fst) :=
  (c8_output_sorted ["20230615150000_b.ts", "20230615143000_create_orders.ts"] _ _ rfl).2

/-! ## C9: `unix_ms` is an exact multiple of 1000 -/

/-- C9. For every matched file with a valid calendar timestamp, the
computed Unix-millisecond value equals the truncated epoch-seconds value
times 1000, hence is an exact multiple of 1000. -/
theorem c9_ms_multiple_of_1000 (nm : String) (ds rest : List Char) (f : DateFields)
    (hm : matchMig nm.data = some (ds, rest)) (hp : parseDate ds = some f) :
    unixMs f = epochSecs f * 1000 ∧ unixMs f % 1000 = 0 := by
  constructor
  · unfold unixMs
    ring
  · unfold unixMs
    exact Int.mul_emod_right 1000 (epochSecs f)

/-- Witness for C9 at the scenario file. -/
theorem c9_ms_multiple_of_1000_witness :
    unixMs ⟨2023, 6, 15, 14, 30, 0⟩ = epochSecs ⟨2023, 6, 15, 14, 30, 0⟩ * 1000 ∧
      unixMs ⟨2023, 6, 15, 14, 30, 0⟩ % 1000 = 0 :=
  c9_ms_multiple_of_1000 "20230615143000_create_orders.ts" "20230615143000".data
    "create_orders".data ⟨2023, 6, 15, 14, 30, 0⟩ rfl rfl

/-! ## C10: no output is printed when the scan phase fails -/

/-- C10. The whole scan-and-transform phase runs before anything is
printed: if it raises (for example on an invalid calendar date), the run
produces no output lines at all rather than a partial report. -/
theorem c10_no_partial_output (listing : List String) (e : String)
    (h : runScript listing = .error e) : scriptOutput listing = .error e := by
  unfold scriptOutput
  rw [h]

/-- Witness for C10: the month-13 listing produces no output lines. -/
theorem c10_no_partial_output_witness :
    scriptOutput ["20231301000000_x.ts"] = .error "20231301000000" :=
  c10_no_partial_output ["20231301000000_x.ts"] "20231301000000" rfl
